import Mathlib

/-!
Verification development for the mev-boost core (`server/functionality.go`):
the `getHeader` auction, the `getPayload` unblinding race for the Deneb and
Electra forks, and the slot-UID registry.  Go values are shallowly embedded:
byte strings become `List Nat`, 256-bit wei values become `Nat`, hex strings
become lists of ASCII codes, and network nondeterminism becomes explicit lists
of completion events folded over the shared state exactly as the mutex-guarded
critical sections execute them.
-/

namespace MevBoost

/-- ASCII code of the lowercase hex digit of a nibble, as produced by Go's
hex encoding of hashes and public keys. -/
def hexDigit (n : Nat) : Nat := if n < 10 then 48 + n else 87 + n

/-- The two hex-digit ASCII codes of one byte, high nibble first. -/
def byteHex (b : Nat) : List Nat := [hexDigit (b / 16), hexDigit (b % 16)]

/-- Hex encoding of a byte string as the list of ASCII codes. -/
def bytesHex (l : List Nat) : List Nat := (l.map byteHex).flatten

/-- Go's `Hash.String()` / `PublicKey.String()`: `0x` followed by lowercase
hex.  48 and 120 are the ASCII codes of `0` and `x`. -/
def hashString (h : List Nat) : List Nat := 48 :: 120 :: bytesHex h

/-- Strict lexicographic order on lists of naturals; this is Go's `<` on the
corresponding strings when the lists are ASCII codes. -/
def listLt : List Nat → List Nat → Bool
  | _, [] => false
  | [], _ :: _ => true
  | a :: as, b :: bs => if a < b then true else if a = b then listLt as bs else false

theorem listLt_nil_right (l : List Nat) : listLt l [] = false := by
  cases l <;> rfl

theorem listLt_cons_cons (a b : Nat) (as bs : List Nat) :
    listLt (a :: as) (b :: bs)
      = if a < b then true else if a = b then listLt as bs else false := rfl

theorem listLt_irrefl (l : List Nat) : listLt l l = false := by
  induction l with
  | nil => rfl
  | cons a as ih => rw [listLt_cons_cons]; simp [ih]

theorem listLt_asymm : ∀ (a b : List Nat), listLt a b = true → listLt b a = false := by
  intro a
  induction a with
  | nil =>
    intro b h
    cases b with
    | nil => simp [listLt] at h
    | cons y ys => exact listLt_nil_right _
  | cons x xs ih =>
    intro b h
    cases b with
    | nil => rw [listLt_nil_right] at h; exact absurd h (by simp)
    | cons y ys =>
      rw [listLt_cons_cons] at h ⊢
      split_ifs at h ⊢ with h1 h2 h3 h4
      all_goals first
        | rfl
        | omega
        | exact ih ys h

theorem listLt_trans :
    ∀ (a b c : List Nat), listLt a b = true → listLt b c = true → listLt a c = true := by
  intro a
  induction a with
  | nil =>
    intro b c hab hbc
    cases c with
    | nil =>
      cases b with
      | nil => exact hab
      | cons y ys => rw [listLt_nil_right] at hbc; exact absurd hbc (by simp)
    | cons z zs => rfl
  | cons x xs ih =>
    intro b c hab hbc
    cases b with
    | nil => rw [listLt_nil_right] at hab; exact absurd hab (by simp)
    | cons y ys =>
      cases c with
      | nil => rw [listLt_nil_right] at hbc; exact absurd hbc (by simp)
      | cons z zs =>
        rw [listLt_cons_cons] at hab hbc ⊢
        split_ifs at hab hbc ⊢ with h1 h2 h3 h4 h5 h6
        all_goals first
          | rfl
          | omega
          | exact ih ys zs hab hbc

theorem listLt_total :
    ∀ (a b : List Nat), a ≠ b → listLt a b = true ∨ listLt b a = true := by
  intro a
  induction a with
  | nil =>
    intro b hne
    cases b with
    | nil => exact absurd rfl hne
    | cons y ys => exact Or.inl rfl
  | cons x xs ih =>
    intro b hne
    cases b with
    | nil => exact Or.inr rfl
    | cons y ys =>
      rw [listLt_cons_cons, listLt_cons_cons]
      by_cases hxy : x = y
      · subst hxy
        have hne2 : xs ≠ ys := by intro h; exact hne (by rw [h])
        rcases ih ys hne2 with h | h
        · left; simp [h]
        · right; simp [h]
      · by_cases hlt : x < y
        · left; simp [hlt]
        · right
          have : y < x := by omega
          simp [this]

theorem hexDigit_lt_iff (a b : Nat) : hexDigit a < hexDigit b ↔ a < b := by
  unfold hexDigit; split_ifs <;> omega

theorem hexDigit_eq_iff (a b : Nat) : hexDigit a = hexDigit b ↔ a = b := by
  unfold hexDigit; split_ifs <;> omega

theorem bytesHex_nil : bytesHex [] = [] := rfl

theorem bytesHex_cons (a : Nat) (l : List Nat) :
    bytesHex (a :: l) = hexDigit (a / 16) :: hexDigit (a % 16) :: bytesHex l := rfl

/-- The hex encoding is strictly monotone for the lexicographic order: Go's
comparison of two hex strings agrees with big-endian byte order. -/
theorem bytesHex_lt (a b : List Nat) : listLt (bytesHex a) (bytesHex b) = listLt a b := by
  induction a generalizing b with
  | nil =>
    cases b with
    | nil => rfl
    | cons y ys => rw [bytesHex_nil, bytesHex_cons]; rfl
  | cons x xs ih =>
    cases b with
    | nil => rw [bytesHex_nil, bytesHex_cons, listLt_nil_right, listLt_nil_right]
    | cons y ys =>
      rw [bytesHex_cons, bytesHex_cons, listLt_cons_cons, listLt_cons_cons,
        listLt_cons_cons, ih]
      simp only [hexDigit_lt_iff, hexDigit_eq_iff]
      split_ifs <;> first | rfl | omega

theorem hashString_lt (a b : List Nat) :
    listLt (hashString a) (hashString b) = listLt a b := by
  rw [hashString, hashString, listLt_cons_cons, listLt_cons_cons]
  simp [bytesHex_lt]

theorem hashString_inj {a b : List Nat} (h : hashString a = hashString b) : a = b := by
  by_contra hne
  rcases listLt_total a b hne with hlt | hlt
  · have h1 : listLt (hashString a) (hashString b) = true := by rw [hashString_lt]; exact hlt
    rw [h, listLt_irrefl] at h1
    exact absurd h1 (by simp)
  · have h1 : listLt (hashString b) (hashString a) = true := by rw [hashString_lt]; exact hlt
    rw [h, listLt_irrefl] at h1
    exact absurd h1 (by simp)

/-! ## Data model of the `getHeader` auction -/

/-- One configured upstream relay: its base URI and its long-lived BLS public
key (`types.RelayEntry`). -/
structure RelayEntry where
  uri : List Nat
  publicKey : List Nat
deriving DecidableEq

/-- The fields `parseBidInfo` extracts from a relay's signed builder bid. -/
structure BidInfo where
  value : Nat
  blockHash : List Nat
  parentHash : List Nat
  blockNumber : Nat
  txRoot : List Nat
  pubkey : List Nat
deriving DecidableEq

/-- A relay's versioned signed builder bid envelope.  The envelope itself is
opaque to the coordinator; the embedding keeps the observations the code makes
of it: emptiness, parse success of `parseBidInfo`, the parsed `BidInfo`, and
the outcome of `checkRelaySignature` (error / boolean result). -/
structure SignedBuilderBid where
  isEmpty : Bool
  parseOk : Bool
  bidInfo : BidInfo
  sigCheckErr : Bool
  sigOk : Bool
deriving DecidableEq

/-- Outcome of one relay's `getHeader` HTTP exchange: a transport error, an
HTTP 204 no-content answer, or a decoded envelope. -/
inductive RelayHeaderResult where
  | networkError
  | noContent
  | payload (p : SignedBuilderBid)
deriving DecidableEq

/-- The all-zero 32-byte hash (`nilHash`). -/
def nilHash : List Nat := List.replicate 32 0

/-- The 32 bytes of the empty-transaction-list sentinel transactions root
`0x7ffe241ea60187fdb0187bfa22de35d1f9bed7ab061d9401fd47e34a54fbede1`. -/
def emptyTxRootBytes : List Nat :=
  [0x7f, 0xfe, 0x24, 0x1e, 0xa6, 0x01, 0x87, 0xfd,
   0xb0, 0x18, 0x7b, 0xfa, 0x22, 0xde, 0x35, 0xd1,
   0xf9, 0xbe, 0xd7, 0xab, 0x06, 0x1d, 0x94, 0x01,
   0xfd, 0x47, 0xe3, 0x4a, 0x54, 0xfb, 0xed, 0xe1]

/-- The sentinel as the hex string the source compares `txRoot.String()`
against. -/
def emptyTxRootString : List Nat := hashString emptyTxRootBytes

/-- The configuration the auction reads: `relayMinBid` in wei and the
`SkipRelaySignatureCheck` flag. -/
structure BoostConfig where
  relayMinBid : Nat
  skipRelaySignatureCheck : Bool
deriving DecidableEq

/-- The validation prefix of the per-relay goroutine of `getHeader`
(`functionality.go` lines 74-149): every early `return` before the mutex is
taken becomes `none`; `some p` means the bid reaches the critical section. -/
def validateBid (cfg : BoostConfig) (parentHashHex : List Nat) (relay : RelayEntry) :
    RelayHeaderResult → Option SignedBuilderBid
  | .networkError => none
  | .noContent => none
  | .payload p =>
    if p.isEmpty then none
    else if !p.parseOk then none
    else if p.bidInfo.blockHash = nilHash then none
    else if hashString relay.publicKey ≠ hashString p.bidInfo.pubkey then none
    else if !cfg.skipRelaySignatureCheck && p.sigCheckErr then none
    else if !cfg.skipRelaySignatureCheck && !p.sigOk then none
    else if hashString p.bidInfo.parentHash ≠ parentHashHex then none
    else if p.bidInfo.value = 0 ∨ hashString p.bidInfo.txRoot = emptyTxRootString then none
    else if p.bidInfo.value < cfg.relayMinBid then none
    else some p

/-- `bidResp`: the winning response assembled by `getHeader` and cached for
`getPayload`. -/
structure bidResp where
  response : SignedBuilderBid
  bidInfo : BidInfo
  t : Nat
  relays : List RelayEntry
deriving DecidableEq

/-- The Go zero value of a `VersionedSignedBuilderBid`; `IsEmpty()` holds. -/
def emptySignedBuilderBid : SignedBuilderBid :=
  { isEmpty := true, parseOk := false,
    bidInfo := { value := 0, blockHash := nilHash, parentHash := nilHash,
                 blockNumber := 0, txRoot := nilHash, pubkey := List.replicate 48 0 },
    sigCheckErr := false, sigOk := false }

/-- The Go zero value of `bidResp`, the initial `result` of the auction. -/
def emptyBidResp : bidResp :=
  { response := emptySignedBuilderBid, bidInfo := emptySignedBuilderBid.bidInfo,
    t := 0, relays := [] }

/-- The shared auction state guarded by the mutex: the current best response
and the per-auction `relays` map from block-hash hex string to the relays that
delivered that hash. -/
structure AuctionState where
  result : bidResp
  relays : List Nat → List RelayEntry

/-- One relay-goroutine completion: which relay, what its HTTP exchange
produced, and the wall-clock instant `time.Now()` would return at adoption. -/
structure HeaderEvent where
  relay : RelayEntry
  res : RelayHeaderResult
  t : Nat
deriving DecidableEq

/-- The ranking comparison of `getHeader` (lines 157-168): `true` iff the
candidate replaces the current best.  With an empty best the candidate is
adopted; otherwise the source discards on `Cmp = -1`, and on `Cmp = 0`
discards unless the candidate's block-hash hex string is strictly smaller. -/
def adoptBid (best : bidResp) (bid : BidInfo) : Bool :=
  if !best.response.isEmpty then
    if bid.value < best.bidInfo.value then false
    else if bid.value = best.bidInfo.value then
      listLt (hashString bid.blockHash) (hashString best.bidInfo.blockHash)
    else true
  else true

/-- The critical section of one relay goroutine (lines 151-175): a rejected
bid leaves the state untouched; an accepted bid is first appended to the
relays map for its block hash, then ranked against the current best. -/
def headerStep (cfg : BoostConfig) (parentHashHex : List Nat)
    (st : AuctionState) (ev : HeaderEvent) : AuctionState :=
  match validateBid cfg parentHashHex ev.relay ev.res with
  | none => st
  | some p =>
    let key := hashString p.bidInfo.blockHash
    let relays1 := fun k => if k = key then st.relays k ++ [ev.relay] else st.relays k
    if adoptBid st.result p.bidInfo then
      { result := { response := p, bidInfo := p.bidInfo, t := ev.t,
                    relays := st.result.relays },
        relays := relays1 }
    else { st with relays := relays1 }

/-- The auction state before any relay completes. -/
def initAuctionState : AuctionState := { result := emptyBidResp, relays := fun _ => [] }

/-- The whole fan-out/gather of `getHeader` over a given completion order of
relay events, including the final `result.relays` assignment (line 181). -/
def runAuction (cfg : BoostConfig) (parentHashHex : List Nat)
    (events : List HeaderEvent) : bidResp :=
  let final := events.foldl (headerStep cfg parentHashHex) initAuctionState
  { final.result with relays := final.relays (hashString final.result.bidInfo.blockHash) }

/-! ## Slot-UID registry and the `getHeader` entry point -/

/-- The slot-UID registry guarded by `slotUIDLock`. -/
structure SlotUIDState where
  slot : Nat
  uid : Nat
deriving DecidableEq

/-- Lines 33-40 of `getHeader`: under the lock, advance slot and regenerate
the UID when the observed slot is strictly newer, then read the current UID.
`fresh` stands for the value `uuid.New()` would produce. -/
def observeSlot (st : SlotUIDState) (slot : Nat) (fresh : Nat) : SlotUIDState × Nat :=
  let st1 := if st.slot < slot then { slot := slot, uid := fresh } else st
  (st1, st1.uid)

/-- The two input-validation errors of `getHeader`. -/
inductive HeaderError where
  | invalidPubkey
  | invalidHash
deriving DecidableEq

/-- `getHeader` (lines 24-183): length-validate the inputs, touch the slot-UID
registry, run the auction over the relay completion events, and return the
winning response; the registry state is threaded explicitly. -/
def getHeader (st : SlotUIDState) (cfg : BoostConfig) (fresh : Nat) (slot : Nat)
    (pubkey parentHashHex : List Nat) (events : List HeaderEvent) :
    SlotUIDState × Except HeaderError bidResp :=
  if pubkey.length ≠ 98 then (st, .error .invalidPubkey)
  else if parentHashHex.length ≠ 66 then (st, .error .invalidHash)
  else
    let ob := observeSlot st slot fresh
    (ob.1, .ok (runAuction cfg parentHashHex events))

/-! ## Data model of the `getPayload` unblinding race -/

/-- The `spec.DataVersion` values the code compares against. -/
inductive DataVersion where
  | deneb
  | electra
  | other (n : Nat)
deriving DecidableEq

/-- The execution payload of an unblinding response; only `BlockHash` is
observed by the coordinator. -/
structure ExecutionPayload where
  blockHash : List Nat
deriving DecidableEq

/-- The blobs bundle: three parallel vectors.  Blobs and proofs are opaque
(only their lengths are observed); commitments are 48-byte strings compared
element-wise. -/
structure BlobsBundle where
  blobs : List Nat
  commitments : List (List Nat)
  proofs : List Nat
deriving DecidableEq

/-- One fork arm of a `VersionedSubmitBlindedBlockResponse`. -/
structure PayloadData where
  executionPayload : ExecutionPayload
  blobsBundle : BlobsBundle
deriving DecidableEq

/-- A relay's `VersionedSubmitBlindedBlockResponse`: a version tag, the
observation `getPayloadResponseIsEmpty` makes of it, and the two fork arms. -/
structure SubmitBlindedBlockResponse where
  version : DataVersion
  isEmptyResp : Bool
  deneb : PayloadData
  electra : PayloadData
deriving DecidableEq

/-- The fields of a signed blinded beacon block the coordinator reads:
`Message.Slot`, `Body.ExecutionPayloadHeader.BlockHash/ParentHash`, and
`Body.BlobKZGCommitments`. -/
structure BlindedBlock where
  slot : Nat
  blockHash : List Nat
  parentHash : List Nat
  blobKZGCommitments : List (List Nat)
deriving DecidableEq

/-- The indexed commitment-equality loop (lines 294-303): `true` iff every
request commitment equals the response commitment at the same index. -/
def commitmentsMatch : List (List Nat) → List (List Nat) → Bool
  | [], _ => true
  | _ :: _, [] => false
  | c :: cs, r :: rs => c == r && commitmentsMatch cs rs

/-- The validation sequence a Deneb unblinding response must pass before it
may be delivered (lines 260-303): version, non-emptiness, block-hash
coherence, blob-vector lengths, element-wise commitments. -/
def validateDenebResponse (blinded : BlindedBlock) (r : SubmitBlindedBlockResponse) : Bool :=
  if r.version ≠ DataVersion.deneb then false
  else if r.isEmptyResp then false
  else if blinded.blockHash ≠ r.deneb.executionPayload.blockHash then false
  else if blinded.blobKZGCommitments.length ≠ r.deneb.blobsBundle.blobs.length ∨
          blinded.blobKZGCommitments.length ≠ r.deneb.blobsBundle.commitments.length ∨
          blinded.blobKZGCommitments.length ≠ r.deneb.blobsBundle.proofs.length then false
  else commitmentsMatch blinded.blobKZGCommitments r.deneb.blobsBundle.commitments

/-- The validation sequence of the Electra copy (lines 396-439). -/
def validateElectraResponse (blinded : BlindedBlock) (r : SubmitBlindedBlockResponse) : Bool :=
  if r.version ≠ DataVersion.electra then false
  else if r.isEmptyResp then false
  else if blinded.blockHash ≠ r.electra.executionPayload.blockHash then false
  else if blinded.blobKZGCommitments.length ≠ r.electra.blobsBundle.blobs.length ∨
          blinded.blobKZGCommitments.length ≠ r.electra.blobsBundle.commitments.length ∨
          blinded.blobKZGCommitments.length ≠ r.electra.blobsBundle.proofs.length then false
  else commitmentsMatch blinded.blobKZGCommitments r.electra.blobsBundle.commitments

/-- One completion event of the payload race: a relay's decoded response, a
relay transport error (or cancellation), or the timeout sentinel firing. -/
inductive RaceEvent where
  | relayResponse (r : SubmitBlindedBlockResponse)
  | relayError
  | sentinel
deriving DecidableEq

/-- The shared race state: the atomic `received` flag and the buffered result
channel in FIFO order. -/
structure RaceState where
  received : Bool
  channel : List (Option SubmitBlindedBlockResponse)
deriving DecidableEq

/-- One interleaving step of the Deneb payload race (lines 233-237 and
244-312): the sentinel posts `nil`; an erroring relay posts nothing; a
responding relay posts its response only if it validates and it wins the
compare-and-swap on `received`. -/
def raceStepDeneb (blinded : BlindedBlock) (st : RaceState) : RaceEvent → RaceState
  | .relayError => st
  | .sentinel => { st with channel := st.channel ++ [none] }
  | .relayResponse r =>
    if validateDenebResponse blinded r then
      if st.received then st
      else { received := true, channel := st.channel ++ [some r] }
    else st

/-- The Electra copy of the race step (lines 369-448). -/
def raceStepElectra (blinded : BlindedBlock) (st : RaceState) : RaceEvent → RaceState
  | .relayError => st
  | .sentinel => { st with channel := st.channel ++ [none] }
  | .relayResponse r =>
    if validateElectraResponse blinded r then
      if st.received then st
      else { received := true, channel := st.channel ++ [some r] }
    else st

/-- The Deneb race over a given interleaving of completion events. -/
def runRaceDeneb (blinded : BlindedBlock) (evs : List RaceEvent) : RaceState :=
  evs.foldl (raceStepDeneb blinded) { received := false, channel := [] }

/-- The Electra race over a given interleaving of completion events. -/
def runRaceElectra (blinded : BlindedBlock) (evs : List RaceEvent) : RaceState :=
  evs.foldl (raceStepElectra blinded) { received := false, channel := [] }

/-- The service state `getPayload` touches: the slot-UID registry and the bid
cache (`m.bids`, keyed by slot and block hash, with the Go zero value for
absent keys baked into the total function). -/
structure ServiceState where
  slotUID : SlotUIDState
  bids : Nat → List Nat → bidResp

/-- Everything observable about one `processDenebPayload` /
`processElectraPayload` call: the service state afterwards, the slot-UID
attached to the relay request headers (`none` is the empty string), the value
read from the result channel, and the cached bid returned alongside it. -/
structure PayloadOutcome where
  state : ServiceState
  headerSlotUID : Option Nat
  result : Option SubmitBlindedBlockResponse
  originalBid : bidResp

/-- `processDenebPayload` (lines 185-319): read the slot-UID under its lock
(attaching the empty UID on slot mismatch), read the cached bid under its
lock, run the payload race, and return the first channel value together with
the cached bid. -/
def processDenebPayload (st : ServiceState) (blinded : BlindedBlock)
    (evs : List RaceEvent) : PayloadOutcome :=
  let currentSlotUID := if st.slotUID.slot = blinded.slot then some st.slotUID.uid else none
  let originalBid := st.bids blinded.slot blinded.blockHash
  let final := runRaceDeneb blinded evs
  { state := st, headerSlotUID := currentSlotUID,
    result := final.channel.head?.getD none, originalBid := originalBid }

/-- `processElectraPayload` (lines 321-455), the near-identical Electra copy. -/
def processElectraPayload (st : ServiceState) (blinded : BlindedBlock)
    (evs : List RaceEvent) : PayloadOutcome :=
  let currentSlotUID := if st.slotUID.slot = blinded.slot then some st.slotUID.uid else none
  let originalBid := st.bids blinded.slot blinded.blockHash
  let final := runRaceElectra blinded evs
  { state := st, headerSlotUID := currentSlotUID,
    result := final.channel.head?.getD none, originalBid := originalBid }

/-! ## The generic unblinding coordinator of the spec's redesign -/

/-- Modelled from the spec: the fork descriptor of the generic-coordinator
redesign (design note "Fork duplication → generic coordinator"), consisting
of the expected response version and the arm extractor; `extract` selects the
fork arm carrying both the execution payload and the blobs bundle. -/
structure ForkDescriptor where
  expectedVersion : DataVersion
  extract : SubmitBlindedBlockResponse → PayloadData

/-- Modelled from the spec: the validation sequence of the generic
coordinator, parameterised over the fork descriptor. -/
def validateGenericResponse (fork : ForkDescriptor) (blinded : BlindedBlock)
    (r : SubmitBlindedBlockResponse) : Bool :=
  if r.version ≠ fork.expectedVersion then false
  else if r.isEmptyResp then false
  else if blinded.blockHash ≠ (fork.extract r).executionPayload.blockHash then false
  else if blinded.blobKZGCommitments.length ≠ (fork.extract r).blobsBundle.blobs.length ∨
          blinded.blobKZGCommitments.length ≠ (fork.extract r).blobsBundle.commitments.length ∨
          blinded.blobKZGCommitments.length ≠ (fork.extract r).blobsBundle.proofs.length then false
  else commitmentsMatch blinded.blobKZGCommitments (fork.extract r).blobsBundle.commitments

/-- Modelled from the spec: one interleaving step of the generic race. -/
def raceStepGeneric (fork : ForkDescriptor) (blinded : BlindedBlock)
    (st : RaceState) : RaceEvent → RaceState
  | .relayError => st
  | .sentinel => { st with channel := st.channel ++ [none] }
  | .relayResponse r =>
    if validateGenericResponse fork blinded r then
      if st.received then st
      else { received := true, channel := st.channel ++ [some r] }
    else st

/-- Modelled from the spec: the generic race over an interleaving. -/
def runRaceGeneric (fork : ForkDescriptor) (blinded : BlindedBlock)
    (evs : List RaceEvent) : RaceState :=
  evs.foldl (raceStepGeneric fork blinded) { received := false, channel := [] }

/-- Modelled from the spec: the generic unblinding coordinator, of which the
two fork copies are claimed to be instances. -/
def processPayloadGeneric (fork : ForkDescriptor) (st : ServiceState)
    (blinded : BlindedBlock) (evs : List RaceEvent) : PayloadOutcome :=
  let currentSlotUID := if st.slotUID.slot = blinded.slot then some st.slotUID.uid else none
  let originalBid := st.bids blinded.slot blinded.blockHash
  let final := runRaceGeneric fork blinded evs
  { state := st, headerSlotUID := currentSlotUID,
    result := final.channel.head?.getD none, originalBid := originalBid }

/-- The Deneb fork descriptor. -/
def denebFork : ForkDescriptor :=
  { expectedVersion := DataVersion.deneb, extract := fun r => r.deneb }

/-- The Electra fork descriptor. -/
def electraFork : ForkDescriptor :=
  { expectedVersion := DataVersion.electra, extract := fun r => r.electra }

/-! ## Concrete fixtures used by witnesses and counterexamples -/

/-- A 48-byte relay public key. -/
def pkFix : List Nat := List.replicate 48 3

/-- A first relay configured with `pkFix`. -/
def relayFixA : RelayEntry := { uri := [1], publicKey := pkFix }

/-- A second relay configured with the same public key. -/
def relayFixB : RelayEntry := { uri := [2], publicKey := pkFix }

/-- A configuration with zero minimum bid and signature checking disabled. -/
def cfgFix : BoostConfig := { relayMinBid := 0, skipRelaySignatureCheck := true }

/-- The proposer-supplied parent hash hex string: the all-zero hash. -/
def phFix : List Nat := hashString nilHash

/-- A bid consistent with `phFix`, `pkFix`, value 1, block hash of ones. -/
def bidInfoFix : BidInfo :=
  { value := 1, blockHash := List.replicate 32 1, parentHash := nilHash,
    blockNumber := 0, txRoot := List.replicate 32 2, pubkey := pkFix }

/-- A valid envelope carrying `bidInfoFix` with a passing signature. -/
def bidFixA : SignedBuilderBid :=
  { isEmpty := false, parseOk := true, bidInfo := bidInfoFix,
    sigCheckErr := false, sigOk := true }

/-- A second envelope carrying the same `bidInfoFix` but a different
signature observation; accepted all the same while signature checking is
disabled. -/
def bidFixB : SignedBuilderBid :=
  { isEmpty := false, parseOk := true, bidInfo := bidInfoFix,
    sigCheckErr := false, sigOk := false }

/-- Relay A completing with envelope `bidFixA`. -/
def evFixA : HeaderEvent := { relay := relayFixA, res := .payload bidFixA, t := 0 }

/-- Relay B completing with envelope `bidFixB`. -/
def evFixB : HeaderEvent := { relay := relayFixB, res := .payload bidFixB, t := 0 }

/-- Relay B answering HTTP 204. -/
def evFixNoContent : HeaderEvent := { relay := relayFixB, res := .noContent, t := 0 }

/-- A non-empty current best: value 1, block hash of twos. -/
def bestFix : bidResp :=
  { response := bidFixA,
    bidInfo := { bidInfoFix with blockHash := List.replicate 32 2 },
    t := 0, relays := [] }

/-- A blinded block at slot 0 whose execution header block hash is ones and
which carries no blob commitments. -/
def blindedFix : BlindedBlock :=
  { slot := 0, blockHash := List.replicate 32 1, parentHash := nilHash,
    blobKZGCommitments := [] }

/-- A payload-data arm matching `blindedFix`. -/
def pdFixGood : PayloadData :=
  { executionPayload := { blockHash := List.replicate 32 1 },
    blobsBundle := { blobs := [], commitments := [], proofs := [] } }

/-- A payload-data arm not matching `blindedFix`. -/
def pdFixBad : PayloadData :=
  { executionPayload := { blockHash := nilHash },
    blobsBundle := { blobs := [], commitments := [], proofs := [] } }

/-- A Deneb unblinding response that validates against `blindedFix`. -/
def respFixD : SubmitBlindedBlockResponse :=
  { version := .deneb, isEmptyResp := false, deneb := pdFixGood, electra := pdFixBad }

/-- An Electra unblinding response that validates against `blindedFix`. -/
def respFixE : SubmitBlindedBlockResponse :=
  { version := .electra, isEmptyResp := false, deneb := pdFixBad, electra := pdFixGood }

/-- A service state at slot 0 with an empty bid cache. -/
def stFix : ServiceState := { slotUID := ⟨0, 0⟩, bids := fun _ _ => emptyBidResp }

/-! ## Properties of the bid validator -/

/-- Everything an envelope that reaches the critical section is known to
satisfy: each conjunct is the negation of one early-return guard of the
per-relay goroutine. -/
theorem validateBid_spec (cfg : BoostConfig) (ph : List Nat) (relay : RelayEntry)
    (res : RelayHeaderResult) (p : SignedBuilderBid)
    (h : validateBid cfg ph relay res = some p) :
    p.isEmpty = false ∧ p.parseOk = true
    ∧ p.bidInfo.blockHash ≠ nilHash
    ∧ hashString relay.publicKey = hashString p.bidInfo.pubkey
    ∧ (cfg.skipRelaySignatureCheck = false → p.sigCheckErr = false ∧ p.sigOk = true)
    ∧ hashString p.bidInfo.parentHash = ph
    ∧ p.bidInfo.value ≠ 0
    ∧ hashString p.bidInfo.txRoot ≠ emptyTxRootString
    ∧ cfg.relayMinBid ≤ p.bidInfo.value := by
  cases res with
  | networkError => exact absurd h (by simp [validateBid])
  | noContent => exact absurd h (by simp [validateBid])
  | payload q =>
    simp only [validateBid] at h
    split_ifs at h with h1 h2 h3 h4 h5 h6 h7 h8 h9
    all_goals cases h
    push_neg at h4 h7 h8
    refine ⟨by simpa using h1, by simpa using h2, h3, h4, ?_, h7, h8.1, h8.2, by omega⟩
    intro hs
    rw [hs] at h5 h6
    simp at h5 h6
    exact ⟨h5, h6⟩

/-- A relay event that fails validation leaves the shared auction state
untouched. -/
theorem headerStep_of_rejected (cfg : BoostConfig) (ph : List Nat)
    (st : AuctionState) (ev : HeaderEvent)
    (h : validateBid cfg ph ev.relay ev.res = none) :
    headerStep cfg ph st ev = st := by
  unfold headerStep
  rw [h]

/-- Deleting a rejected relay event from the completion order does not change
the auction result: rejection aborts nothing. -/
theorem runAuction_of_rejected (cfg : BoostConfig) (ph : List Nat)
    (ev : HeaderEvent) (l1 l2 : List HeaderEvent)
    (h : validateBid cfg ph ev.relay ev.res = none) :
    runAuction cfg ph (l1 ++ ev :: l2) = runAuction cfg ph (l1 ++ l2) := by
  unfold runAuction
  rw [List.foldl_append, List.foldl_append, List.foldl_cons,
    headerStep_of_rejected cfg ph _ ev h]

/-- Claim C1: rejection safety of the `getHeader` auction.  A bid that
reaches the shared auction state has nonzero value, a transactions root
different from the empty-list sentinel, the proposer's parent hash, the
relay's configured builder pubkey, a nonzero block hash, a passing signature
whenever checking is enabled, and a value at least `relayMinBid`; and a
relay response failing any of these checks is dropped before the mutex is
taken, leaving the auction over the remaining relays unchanged. -/
theorem getHeader_rejection_safety (cfg : BoostConfig) (ph : List Nat)
    (relay : RelayEntry) (res : RelayHeaderResult) (p : SignedBuilderBid)
    (ev : HeaderEvent) (l1 l2 : List HeaderEvent)
    (hacc : validateBid cfg ph relay res = some p)
    (hrej : validateBid cfg ph ev.relay ev.res = none) :
    (p.bidInfo.value ≠ 0
      ∧ p.bidInfo.txRoot ≠ emptyTxRootBytes
      ∧ hashString p.bidInfo.parentHash = ph
      ∧ p.bidInfo.pubkey = relay.publicKey
      ∧ p.bidInfo.blockHash ≠ nilHash
      ∧ (cfg.skipRelaySignatureCheck = false → p.sigOk = true)
      ∧ cfg.relayMinBid ≤ p.bidInfo.value)
    ∧ runAuction cfg ph (l1 ++ ev :: l2) = runAuction cfg ph (l1 ++ l2) := by
  obtain ⟨-, -, hbh, hpk, hsig, hph, hv0, htx, hmin⟩ :=
    validateBid_spec cfg ph relay res p hacc
  refine ⟨⟨hv0, ?_, hph, (hashString_inj hpk).symm, hbh, fun hs => (hsig hs).2, hmin⟩,
    runAuction_of_rejected cfg ph ev l1 l2 hrej⟩
  intro hEq
  exact htx (by rw [hEq]; rfl)

/-- Witness for C1: the fixture envelope is accepted, all conjuncts hold for
it, and deleting relay B's 204 answer from the order changes nothing. -/
theorem getHeader_rejection_safety_witness :
    (bidFixA.bidInfo.value ≠ 0
      ∧ bidFixA.bidInfo.txRoot ≠ emptyTxRootBytes
      ∧ hashString bidFixA.bidInfo.parentHash = phFix
      ∧ bidFixA.bidInfo.pubkey = relayFixA.publicKey
      ∧ bidFixA.bidInfo.blockHash ≠ nilHash
      ∧ (cfgFix.skipRelaySignatureCheck = false → bidFixA.sigOk = true)
      ∧ cfgFix.relayMinBid ≤ bidFixA.bidInfo.value)
    ∧ runAuction cfgFix phFix ([evFixA] ++ evFixNoContent :: [])
        = runAuction cfgFix phFix ([evFixA] ++ []) :=
  getHeader_rejection_safety cfgFix phFix relayFixA (.payload bidFixA) bidFixA
    evFixNoContent [evFixA] [] (by decide) (by decide)

/-- Claim C2: total order and tie-break of the ranking step.  Against a
non-empty best, a candidate is adopted exactly when its value is strictly
greater, or the values are equal and its block hash is lexicographically
strictly smaller; the hex-string comparison the source performs coincides
with big-endian byte order. -/
theorem getHeader_ranking_tiebreak (best : bidResp) (bid : BidInfo)
    (a b : List Nat) (hne : best.response.isEmpty = false) :
    (adoptBid best bid = true ↔
      (best.bidInfo.value < bid.value
        ∨ (bid.value = best.bidInfo.value
            ∧ listLt bid.blockHash best.bidInfo.blockHash = true)))
    ∧ listLt (hashString a) (hashString b) = listLt a b := by
  refine ⟨?_, hashString_lt a b⟩
  unfold adoptBid
  rw [hne]
  simp only [Bool.not_false, if_true]
  split_ifs with h1 h2
  · simp only [false_iff]
    rintro (h | ⟨h, -⟩) <;> omega
  · rw [hashString_lt]
    constructor
    · intro h; exact Or.inr ⟨h2, h⟩
    · rintro (h | ⟨-, h⟩)
      · omega
      · exact h
  · simp only [true_iff]
    exact Or.inl (by omega)

/-- Witness for C2: with equal values, the candidate with block hash of ones
is adopted over the best with block hash of twos. -/
theorem getHeader_ranking_tiebreak_witness :
    ((adoptBid bestFix bidInfoFix = true ↔
      (bestFix.bidInfo.value < bidInfoFix.value
        ∨ (bidInfoFix.value = bestFix.bidInfo.value
            ∧ listLt bidInfoFix.blockHash bestFix.bidInfo.blockHash = true)))
      ∧ listLt (hashString nilHash) (hashString (List.replicate 32 1))
          = listLt nilHash (List.replicate 32 1))
    ∧ adoptBid bestFix bidInfoFix = true :=
  ⟨getHeader_ranking_tiebreak bestFix bidInfoFix nilHash (List.replicate 32 1)
    (by decide), by decide⟩

/-! ## Order invariance of the auction winner's key -/

/-- The ranking key of a bid: its value and block-hash hex string. -/
def bidKeyOf (p : SignedBuilderBid) : Nat × List Nat :=
  (p.bidInfo.value, hashString p.bidInfo.blockHash)

/-- The strict ranking order on keys: higher value first, then smaller hash. -/
def keyBetter (c b : Nat × List Nat) : Bool :=
  if b.1 < c.1 then true else if c.1 = b.1 then listLt c.2 b.2 else false

/-- One ranking step on the level of keys. -/
def keyStep (k : Option (Nat × List Nat)) (c : Nat × List Nat) :
    Option (Nat × List Nat) :=
  match k with
  | none => some c
  | some b => if keyBetter c b then some c else some b

/-- One auction event on the level of keys. -/
def stepKey (cfg : BoostConfig) (ph : List Nat) (k : Option (Nat × List Nat))
    (ev : HeaderEvent) : Option (Nat × List Nat) :=
  match validateBid cfg ph ev.relay ev.res with
  | none => k
  | some p => keyStep k (bidKeyOf p)

/-- The key of the current best, `none` while no bid has been adopted. -/
def auctionKey (st : AuctionState) : Option (Nat × List Nat) :=
  if st.result.response.isEmpty then none
  else some (st.result.bidInfo.value, hashString st.result.bidInfo.blockHash)

theorem keyBetter_asymm (c b : Nat × List Nat) (h : keyBetter c b = true) :
    keyBetter b c = false := by
  unfold keyBetter at h ⊢
  split_ifs at h ⊢ with h1 h2 h3 h4
  all_goals first
    | rfl
    | omega
    | (exact listLt_asymm _ _ h)

theorem keyBetter_trans (a b c : Nat × List Nat)
    (hab : keyBetter a b = true) (hbc : keyBetter b c = true) :
    keyBetter a c = true := by
  unfold keyBetter at hab hbc ⊢
  split_ifs at hab hbc ⊢ with h1 h2 h3 h4 h5 h6
  all_goals first
    | rfl
    | omega
    | (exact listLt_trans _ _ _ hab hbc)

theorem keyBetter_total (a b : Nat × List Nat) (h : a ≠ b) :
    keyBetter a b = true ∨ keyBetter b a = true := by
  obtain ⟨a1, a2⟩ := a
  obtain ⟨b1, b2⟩ := b
  by_cases h1 : a1 = b1
  · subst h1
    have h2 : a2 ≠ b2 := fun hc => h (by rw [hc])
    rcases listLt_total a2 b2 h2 with hlt | hlt
    · left; simp [keyBetter, hlt]
    · right; simp [keyBetter, hlt]
  · rcases Nat.lt_or_ge a1 b1 with hlt | hge
    · right; simp [keyBetter, hlt]
    · left
      have : b1 < a1 := by omega
      simp [keyBetter, this]

theorem keyStep_comm (k : Option (Nat × List Nat)) (c d : Nat × List Nat) :
    keyStep (keyStep k c) d = keyStep (keyStep k d) c := by
  by_cases hcd : c = d
  · rw [hcd]
  cases k with
  | none =>
    cases hdc : keyBetter d c <;> cases hcd2 : keyBetter c d
    · rcases keyBetter_total c d hcd with ht | ht
      · rw [ht] at hcd2; cases hcd2
      · rw [ht] at hdc; cases hdc
    · simp [keyStep, hdc, hcd2]
    · simp [keyStep, hdc, hcd2]
    · have := keyBetter_asymm c d hcd2
      rw [hdc] at this; cases this
  | some b =>
    cases hA : keyBetter c b <;> cases hB : keyBetter d b
    · simp [keyStep, hA, hB]
    · have hcd2 : keyBetter c d = false := by
        cases hv : keyBetter c d
        · rfl
        · have := keyBetter_trans c d b hv hB
          rw [hA] at this; cases this
      simp [keyStep, hA, hB, hcd2]
    · have hdc : keyBetter d c = false := by
        cases hv : keyBetter d c
        · rfl
        · have := keyBetter_trans d c b hv hA
          rw [hB] at this; cases this
      simp [keyStep, hA, hB, hdc]
    · cases hdc : keyBetter d c <;> cases hcd2 : keyBetter c d
      · rcases keyBetter_total c d hcd with ht | ht
        · rw [ht] at hcd2; cases hcd2
        · rw [ht] at hdc; cases hdc
      · simp [keyStep, hA, hB, hdc, hcd2]
      · simp [keyStep, hA, hB, hdc, hcd2]
      · have := keyBetter_asymm c d hcd2
        rw [hdc] at this; cases this

theorem stepKey_comm (cfg : BoostConfig) (ph : List Nat)
    (k : Option (Nat × List Nat)) (e1 e2 : HeaderEvent) :
    stepKey cfg ph (stepKey cfg ph k e1) e2
      = stepKey cfg ph (stepKey cfg ph k e2) e1 := by
  simp only [stepKey]
  cases h1 : validateBid cfg ph e1.relay e1.res <;>
    cases h2 : validateBid cfg ph e2.relay e2.res <;> simp
  exact keyStep_comm k _ _

theorem foldl_stepKey_perm (cfg : BoostConfig) (ph : List Nat)
    {l1 l2 : List HeaderEvent} (hp : l1.Perm l2) :
    ∀ k, l1.foldl (stepKey cfg ph) k = l2.foldl (stepKey cfg ph) k := by
  induction hp with
  | nil => intro k; rfl
  | cons x _ ih => intro k; simp only [List.foldl_cons]; exact ih _
  | swap x y l => intro k; simp only [List.foldl_cons]; rw [stepKey_comm]
  | trans _ _ ih1 ih2 => intro k; rw [ih1, ih2]

/-- One auction step tracks the key-level step. -/
theorem auctionKey_headerStep (cfg : BoostConfig) (ph : List Nat)
    (st : AuctionState) (ev : HeaderEvent) :
    auctionKey (headerStep cfg ph st ev) = stepKey cfg ph (auctionKey st) ev := by
  cases hv : validateBid cfg ph ev.relay ev.res with
  | none => simp [headerStep, stepKey, hv]
  | some p =>
    have hne : p.isEmpty = false := (validateBid_spec cfg ph ev.relay ev.res p hv).1
    by_cases he : st.result.response.isEmpty = true
    · have hadopt : adoptBid st.result p.bidInfo = true := by
        unfold adoptBid; rw [he]; rfl
      simp [headerStep, stepKey, hv, hadopt, auctionKey, he, hne, keyStep, bidKeyOf]
    · rw [Bool.not_eq_true] at he
      have hbridge : adoptBid st.result p.bidInfo
          = keyBetter (bidKeyOf p)
              (st.result.bidInfo.value, hashString st.result.bidInfo.blockHash) := by
        unfold adoptBid keyBetter bidKeyOf
        rw [he]
        simp only [Bool.not_false, if_true]
        split_ifs <;> first | rfl | omega
      cases hadopt : adoptBid st.result p.bidInfo
      · have hkb : keyBetter (bidKeyOf p)
            (st.result.bidInfo.value, hashString st.result.bidInfo.blockHash) = false := by
          rw [← hbridge]; exact hadopt
        simp [headerStep, stepKey, hv, hadopt, auctionKey, he, keyStep, hkb]
      · have hkb : keyBetter (bidKeyOf p)
            (st.result.bidInfo.value, hashString st.result.bidInfo.blockHash) = true := by
          rw [← hbridge]; exact hadopt
        simp only [bidKeyOf] at hkb
        simp [headerStep, stepKey, hv, hadopt, auctionKey, he, hne, keyStep, bidKeyOf, hkb]

theorem auctionKey_foldl (cfg : BoostConfig) (ph : List Nat) :
    ∀ (evs : List HeaderEvent) (st : AuctionState),
    auctionKey (evs.foldl (headerStep cfg ph) st)
      = evs.foldl (stepKey cfg ph) (auctionKey st) := by
  intro evs
  induction evs with
  | nil => intro st; rfl
  | cons e es ih =>
    intro st
    rw [List.foldl_cons, List.foldl_cons, ih, auctionKey_headerStep]

/-- While the best is still empty the whole result record is still the Go
zero value. -/
theorem auction_foldl_empty (cfg : BoostConfig) (ph : List Nat) :
    ∀ (evs : List HeaderEvent) (st : AuctionState),
    (st.result = emptyBidResp ∨ st.result.response.isEmpty = false) →
    ((evs.foldl (headerStep cfg ph) st).result = emptyBidResp
      ∨ (evs.foldl (headerStep cfg ph) st).result.response.isEmpty = false) := by
  intro evs
  induction evs with
  | nil => intro st h; exact h
  | cons e es ih =>
    intro st h
    rw [List.foldl_cons]
    apply ih
    cases hv : validateBid cfg ph e.relay e.res with
    | none => rwa [headerStep_of_rejected cfg ph st e hv]
    | some p =>
      have hne : p.isEmpty = false := (validateBid_spec cfg ph e.relay e.res p hv).1
      cases hadopt : adoptBid st.result p.bidInfo
      · simpa [headerStep, hv, hadopt] using h
      · simp [headerStep, hv, hadopt, hne]

/-- Counterexample to C5 as stated: two relays deliver bids with the same
value and block hash but distinct envelopes (they differ in the signature
observation, which is not inspected while checking is disabled).  The two
completion orders are permutations of one another, yet the winning response
envelope — and the order of the winner's relays list — differ. -/
theorem getHeader_auction_order_dependent_cex :
    List.Perm [evFixA, evFixB] [evFixB, evFixA]
    ∧ (runAuction cfgFix phFix [evFixA, evFixB]).response
        ≠ (runAuction cfgFix phFix [evFixB, evFixA]).response
    ∧ (runAuction cfgFix phFix [evFixA, evFixB]).relays
        ≠ (runAuction cfgFix phFix [evFixB, evFixA]).relays :=
  ⟨List.Perm.swap evFixB evFixA [], by decide, by decide⟩

/-- Claim C5 amended: for a fixed multiset of relay responses the auction
winner's identity — whether a winner exists, its value, and its block hash —
is invariant under the completion order; the winning envelope and the order
of the relays list may still depend on arrival order when two relays deliver
bids with equal value and equal block hash. -/
theorem getHeader_auction_winner_order_invariant (cfg : BoostConfig)
    (ph : List Nat) (l1 l2 : List HeaderEvent) (hp : l1.Perm l2) :
    (runAuction cfg ph l1).response.isEmpty = (runAuction cfg ph l2).response.isEmpty
    ∧ (runAuction cfg ph l1).bidInfo.value = (runAuction cfg ph l2).bidInfo.value
    ∧ (runAuction cfg ph l1).bidInfo.blockHash
        = (runAuction cfg ph l2).bidInfo.blockHash := by
  have hkey : auctionKey (l1.foldl (headerStep cfg ph) initAuctionState)
      = auctionKey (l2.foldl (headerStep cfg ph) initAuctionState) := by
    rw [auctionKey_foldl, auctionKey_foldl]
    exact foldl_stepKey_perm cfg ph hp _
  have hinv1 := auction_foldl_empty cfg ph l1 initAuctionState (Or.inl rfl)
  have hinv2 := auction_foldl_empty cfg ph l2 initAuctionState (Or.inl rfl)
  have hresp : ∀ l : List HeaderEvent,
      (runAuction cfg ph l).response
        = (l.foldl (headerStep cfg ph) initAuctionState).result.response := by
    intro l; rfl
  have hbi : ∀ l : List HeaderEvent,
      (runAuction cfg ph l).bidInfo
        = (l.foldl (headerStep cfg ph) initAuctionState).result.bidInfo := by
    intro l; rfl
  rw [hresp, hresp, hbi, hbi]
  unfold auctionKey at hkey
  by_cases he1 : (l1.foldl (headerStep cfg ph) initAuctionState).result.response.isEmpty = true
  · rw [if_pos he1] at hkey
    by_cases he2 : (l2.foldl (headerStep cfg ph) initAuctionState).result.response.isEmpty = true
    · have hr1 : (l1.foldl (headerStep cfg ph) initAuctionState).result = emptyBidResp := by
        rcases hinv1 with h | h
        · exact h
        · rw [he1] at h; cases h
      have hr2 : (l2.foldl (headerStep cfg ph) initAuctionState).result = emptyBidResp := by
        rcases hinv2 with h | h
        · exact h
        · rw [he2] at h; cases h
      rw [hr1, hr2]
      exact ⟨rfl, rfl, rfl⟩
    · rw [if_neg he2] at hkey; cases hkey
  · rw [if_neg he1] at hkey
    by_cases he2 : (l2.foldl (headerStep cfg ph) initAuctionState).result.response.isEmpty = true
    · rw [if_pos he2] at hkey; cases hkey
    · rw [if_neg he2] at hkey
      obtain ⟨hval, hhash⟩ := Prod.mk.injEq .. ▸ Option.some.injEq .. ▸ hkey
      refine ⟨?_, ?_, hashString_inj ?_⟩
      · rw [Bool.not_eq_true] at he1 he2; rw [he1, he2]
      · exact hval
      · exact hhash

/-- Witness for C5's amended theorem at a concrete permutation: the two
orders of the fixture events yield the same winner identity. -/
theorem getHeader_auction_winner_order_invariant_witness :
    (runAuction cfgFix phFix [evFixA, evFixB]).response.isEmpty
        = (runAuction cfgFix phFix [evFixB, evFixA]).response.isEmpty
    ∧ (runAuction cfgFix phFix [evFixA, evFixB]).bidInfo.value
        = (runAuction cfgFix phFix [evFixB, evFixA]).bidInfo.value
    ∧ (runAuction cfgFix phFix [evFixA, evFixB]).bidInfo.blockHash
        = (runAuction cfgFix phFix [evFixB, evFixA]).bidInfo.blockHash :=
  getHeader_auction_winner_order_invariant cfgFix phFix [evFixA, evFixB]
    [evFixB, evFixA] (List.Perm.swap evFixB evFixA [])

/-! ## Slot-UID registry and input validation -/

/-- Claim C6: slot-UID registry monotonicity.  The registry slot never
decreases; a strictly newer slot installs the new slot with the fresh UID and
returns it; an older or equal slot leaves the registry unchanged and returns
the then-current UID; and a whole `getHeader` call never rewinds the
registry slot either. -/
theorem slotUID_monotonic (st : SlotUIDState) (slot fresh : Nat)
    (cfg : BoostConfig) (pubkey ph : List Nat) (evs : List HeaderEvent) :
    st.slot ≤ (observeSlot st slot fresh).1.slot
    ∧ (st.slot < slot →
        (observeSlot st slot fresh).1 = ⟨slot, fresh⟩
          ∧ (observeSlot st slot fresh).2 = fresh)
    ∧ (slot ≤ st.slot →
        (observeSlot st slot fresh).1 = st
          ∧ (observeSlot st slot fresh).2 = st.uid)
    ∧ st.slot ≤ (getHeader st cfg fresh slot pubkey ph evs).1.slot
    ∧ (pubkey.length = 98 → ph.length = 66 →
        (getHeader st cfg fresh slot pubkey ph evs).1 = (observeSlot st slot fresh).1) := by
  refine ⟨?_, ?_, ?_, ?_, ?_⟩
  · unfold observeSlot
    split_ifs with hlt
    · simp
      omega
    · simp
  · intro h
    unfold observeSlot
    rw [if_pos h]
    exact ⟨rfl, rfl⟩
  · intro h
    unfold observeSlot
    rw [if_neg (by omega)]
    exact ⟨rfl, rfl⟩
  · unfold getHeader
    split_ifs
    · exact Nat.le_refl _
    · exact Nat.le_refl _
    · unfold observeSlot
      split_ifs with hlt
      · simp
        omega
      · simp
  · intro h1 h2
    unfold getHeader
    split_ifs <;> first | rfl | omega

/-- Witness for C6 at concrete inputs: slot 1 advanced to 2 installs the
fresh UID; slot 2 observed again at 2 is unchanged. -/
theorem slotUID_monotonic_witness :
    ((observeSlot ⟨1, 5⟩ 2 7).1 = ⟨2, 7⟩ ∧ (observeSlot ⟨1, 5⟩ 2 7).2 = 7)
    ∧ ((observeSlot ⟨2, 7⟩ 2 9).1 = ⟨2, 7⟩ ∧ (observeSlot ⟨2, 7⟩ 2 9).2 = 7)
    ∧ (getHeader ⟨1, 5⟩ cfgFix 7 2 (List.replicate 98 122) phFix []).1
        = (observeSlot ⟨1, 5⟩ 2 7).1 :=
  ⟨(slotUID_monotonic ⟨1, 5⟩ 2 7 cfgFix [] [] []).2.1 (by decide),
   (slotUID_monotonic ⟨2, 7⟩ 2 9 cfgFix [] [] []).2.2.1 (by decide),
   (slotUID_monotonic ⟨1, 5⟩ 2 7 cfgFix (List.replicate 98 122) phFix []).2.2.2.2
     (by decide) (by decide)⟩

/-- Counterexample to C7 as stated: a proposer pubkey argument of 98 `z`
characters (ASCII 122) is not of the form `0x` followed by 96 hex digits,
yet `getHeader` does not fail — only the length is checked. -/
theorem getHeader_nonhex_pubkey_accepted_cex :
    (List.replicate 98 122 : List Nat).length = 98
    ∧ (getHeader ⟨0, 0⟩ cfgFix 0 0 (List.replicate 98 122) phFix []).2
        = Except.ok (runAuction cfgFix phFix []) :=
  ⟨by decide, rfl⟩

/-- Claim C7 amended: `getHeader` fails with `InvalidPubkey` exactly when the
pubkey argument is not 98 bytes long, and with `InvalidHash` exactly when the
pubkey is 98 bytes long and the parent-hash argument is not 66 bytes long —
hex-digit content is never inspected.  On either failure the registry is left
untouched and the result is independent of any relay response, and these two
are the only error values. -/
theorem getHeader_input_validation (st : SlotUIDState) (cfg : BoostConfig)
    (fresh slot : Nat) (pubkey ph : List Nat) (evs : List HeaderEvent) :
    ((getHeader st cfg fresh slot pubkey ph evs).2
        = Except.error HeaderError.invalidPubkey ↔ pubkey.length ≠ 98)
    ∧ ((getHeader st cfg fresh slot pubkey ph evs).2
        = Except.error HeaderError.invalidHash
          ↔ (pubkey.length = 98 ∧ ph.length ≠ 66))
    ∧ (pubkey.length ≠ 98 →
        getHeader st cfg fresh slot pubkey ph evs
          = (st, Except.error HeaderError.invalidPubkey))
    ∧ (pubkey.length = 98 → ph.length ≠ 66 →
        getHeader st cfg fresh slot pubkey ph evs
          = (st, Except.error HeaderError.invalidHash)) := by
  unfold getHeader
  split_ifs with h1 h2
  · simp [h1]
  · simp [h1, h2]
    omega
  · simp [h1, h2]

/-- Witness for C7's amended theorem: a 97-byte pubkey is rejected as
`InvalidPubkey` with the registry unchanged. -/
theorem getHeader_input_validation_witness :
    getHeader ⟨0, 0⟩ cfgFix 0 0 (List.replicate 97 122) phFix []
      = (⟨0, 0⟩, Except.error HeaderError.invalidPubkey) :=
  (getHeader_input_validation ⟨0, 0⟩ cfgFix 0 0 (List.replicate 97 122)
    phFix []).2.2.1 (by decide)

/-! ## Properties of the payload race -/

/-- The two fork copies of the race are the generic race at their
descriptors. -/
theorem runRaceDeneb_as_generic :
    runRaceDeneb = runRaceGeneric denebFork := rfl

theorem runRaceElectra_as_generic :
    runRaceElectra = runRaceGeneric electraFork := rfl

theorem validateDeneb_as_generic :
    validateDenebResponse = validateGenericResponse denebFork := rfl

theorem validateElectra_as_generic :
    validateElectraResponse = validateGenericResponse electraFork := rfl

/-- Element-wise equal commitment vectors of equal length are equal. -/
theorem commitmentsMatch_eq :
    ∀ (cs rs : List (List Nat)), commitmentsMatch cs rs = true →
      cs.length = rs.length → cs = rs := by
  intro cs
  induction cs with
  | nil =>
    intro rs _ hl
    cases rs with
    | nil => rfl
    | cons r rt => cases hl
  | cons c ct ih =>
    intro rs h hl
    cases rs with
    | nil => cases h
    | cons r rt =>
      simp only [commitmentsMatch, Bool.and_eq_true, beq_iff_eq] at h
      simp only [List.length_cons, Nat.add_right_cancel_iff] at hl
      rw [h.1, ih rt h.2 hl]

/-- What a response passing the generic validation sequence satisfies. -/
theorem validateGeneric_spec (fork : ForkDescriptor) (blinded : BlindedBlock)
    (r : SubmitBlindedBlockResponse)
    (h : validateGenericResponse fork blinded r = true) :
    r.version = fork.expectedVersion ∧ r.isEmptyResp = false
    ∧ (fork.extract r).executionPayload.blockHash = blinded.blockHash
    ∧ (fork.extract r).blobsBundle.blobs.length = blinded.blobKZGCommitments.length
    ∧ (fork.extract r).blobsBundle.commitments.length = blinded.blobKZGCommitments.length
    ∧ (fork.extract r).blobsBundle.proofs.length = blinded.blobKZGCommitments.length
    ∧ (fork.extract r).blobsBundle.commitments = blinded.blobKZGCommitments := by
  unfold validateGenericResponse at h
  split_ifs at h with h1 h2 h3 h4
  push_neg at h1 h3 h4
  obtain ⟨hb, hc, hp⟩ := h4
  have hcomm := commitmentsMatch_eq _ _ h hc
  exact ⟨h1, by simpa using h2, h3.symm, hb.symm, hc.symm, hp.symm, hcomm.symm⟩

theorem raceStepGeneric_err (fork : ForkDescriptor) (blinded : BlindedBlock)
    (st : RaceState) :
    raceStepGeneric fork blinded st .relayError = st := rfl

theorem raceStepGeneric_sentinel (fork : ForkDescriptor) (blinded : BlindedBlock)
    (st : RaceState) :
    raceStepGeneric fork blinded st .sentinel
      = { st with channel := st.channel ++ [none] } := rfl

theorem raceStepGeneric_resp_invalid (fork : ForkDescriptor) (blinded : BlindedBlock)
    (st : RaceState) (r : SubmitBlindedBlockResponse)
    (hv : validateGenericResponse fork blinded r = false) :
    raceStepGeneric fork blinded st (.relayResponse r) = st := by
  simp [raceStepGeneric, hv]

theorem raceStepGeneric_resp_lost (fork : ForkDescriptor) (blinded : BlindedBlock)
    (st : RaceState) (r : SubmitBlindedBlockResponse)
    (hr : st.received = true) :
    raceStepGeneric fork blinded st (.relayResponse r) = st := by
  by_cases hv : validateGenericResponse fork blinded r = true
  · simp [raceStepGeneric, hv, hr]
  · rw [Bool.not_eq_true] at hv
    simp [raceStepGeneric, hv]

theorem raceStepGeneric_resp_win (fork : ForkDescriptor) (blinded : BlindedBlock)
    (st : RaceState) (r : SubmitBlindedBlockResponse)
    (hv : validateGenericResponse fork blinded r = true)
    (hr : st.received = false) :
    raceStepGeneric fork blinded st (.relayResponse r)
      = { received := true, channel := st.channel ++ [some r] } := by
  simp [raceStepGeneric, hv, hr]

/-- Channel contents invariant of the generic race: every channel entry is
the sentinel's `nil` or a response that passed the validation sequence. -/
theorem runRaceGeneric_channel_inv (fork : ForkDescriptor) (blinded : BlindedBlock) :
    ∀ (evs : List RaceEvent) (st : RaceState),
      (∀ x ∈ st.channel, x = none
        ∨ ∃ r, x = some r ∧ validateGenericResponse fork blinded r = true) →
      ∀ x ∈ (evs.foldl (raceStepGeneric fork blinded) st).channel, x = none
        ∨ ∃ r, x = some r ∧ validateGenericResponse fork blinded r = true := by
  intro evs
  induction evs with
  | nil => intro st h; exact h
  | cons e es ih =>
    intro st h
    rw [List.foldl_cons]
    apply ih
    cases e with
    | relayError => rw [raceStepGeneric_err]; exact h
    | sentinel =>
      rw [raceStepGeneric_sentinel]
      intro x hx
      simp only [List.mem_append, List.mem_singleton] at hx
      rcases hx with hx | hx
      · exact h x hx
      · exact Or.inl hx
    | relayResponse r =>
      by_cases hv : validateGenericResponse fork blinded r = true
      · by_cases hr : st.received = true
        · rw [raceStepGeneric_resp_lost fork blinded st r hr]; exact h
        · rw [Bool.not_eq_true] at hr
          rw [raceStepGeneric_resp_win fork blinded st r hv hr]
          intro x hx
          simp only [List.mem_append, List.mem_singleton] at hx
          rcases hx with hx | hx
          · exact h x hx
          · exact Or.inr ⟨r, hx, hv⟩
      · rw [Bool.not_eq_true] at hv
        rw [raceStepGeneric_resp_invalid fork blinded st r hv]
        exact h

/-- Count invariant of the generic race: the channel holds at most one
non-nil payload, and none at all while `received` is still false. -/
theorem runRaceGeneric_count_inv (fork : ForkDescriptor) (blinded : BlindedBlock) :
    ∀ (evs : List RaceEvent) (st : RaceState),
      st.channel.countP Option.isSome ≤ (if st.received then 1 else 0) →
      (evs.foldl (raceStepGeneric fork blinded) st).channel.countP Option.isSome
        ≤ (if (evs.foldl (raceStepGeneric fork blinded) st).received then 1 else 0) := by
  intro evs
  induction evs with
  | nil => intro st h; exact h
  | cons e es ih =>
    intro st h
    rw [List.foldl_cons]
    apply ih
    cases e with
    | relayError => rw [raceStepGeneric_err]; exact h
    | sentinel =>
      rw [raceStepGeneric_sentinel]
      simp only [List.countP_append]
      simpa using h
    | relayResponse r =>
      by_cases hv : validateGenericResponse fork blinded r = true
      · by_cases hr : st.received = true
        · rw [raceStepGeneric_resp_lost fork blinded st r hr]; exact h
        · rw [Bool.not_eq_true] at hr
          rw [raceStepGeneric_resp_win fork blinded st r hv hr]
          rw [hr] at h
          have h0 : st.channel.countP Option.isSome = 0 := Nat.le_zero.mp (by simpa using h)
          simp [List.countP_append, h0]
      · rw [Bool.not_eq_true] at hv
        rw [raceStepGeneric_resp_invalid fork blinded st r hv]
        exact h

/-- Race events that do not touch the channel: relay errors and responses
failing validation. -/
def quietEventGeneric (fork : ForkDescriptor) (blinded : BlindedBlock) :
    RaceEvent → Bool
  | .relayResponse r => !validateGenericResponse fork blinded r
  | .relayError => true
  | .sentinel => false

theorem quiet_foldl (fork : ForkDescriptor) (blinded : BlindedBlock) :
    ∀ (l : List RaceEvent) (st : RaceState),
      (∀ e ∈ l, quietEventGeneric fork blinded e = true) →
      l.foldl (raceStepGeneric fork blinded) st = st := by
  intro l
  induction l with
  | nil => intro st _; rfl
  | cons e es ih =>
    intro st h
    rw [List.foldl_cons]
    have he := h e (List.mem_cons_self e es)
    have hstep : raceStepGeneric fork blinded st e = st := by
      cases e with
      | relayError => rfl
      | sentinel => cases he
      | relayResponse r =>
        simp only [quietEventGeneric, Bool.not_eq_true'] at he
        exact raceStepGeneric_resp_invalid fork blinded st r he
    rw [hstep]
    exact ih st fun x hx => h x (List.mem_cons_of_mem e hx)

theorem head?_append_left {α : Type} (l m : List α) (h : l ≠ []) :
    (l ++ m).head? = l.head? := by
  cases l with
  | nil => exact absurd rfl h
  | cons a as => rfl

/-- Once the channel is non-empty, later race events never change its head
and never empty it. -/
theorem raceStepGeneric_head (fork : ForkDescriptor) (blinded : BlindedBlock)
    (st : RaceState) (e : RaceEvent) (h : st.channel ≠ []) :
    (raceStepGeneric fork blinded st e).channel.head? = st.channel.head?
    ∧ (raceStepGeneric fork blinded st e).channel ≠ [] := by
  cases e with
  | relayError => exact ⟨rfl, h⟩
  | sentinel =>
    rw [raceStepGeneric_sentinel]
    refine ⟨head?_append_left _ _ h, ?_⟩
    simp
  | relayResponse r =>
    by_cases hv : validateGenericResponse fork blinded r = true
    · by_cases hr : st.received = true
      · rw [raceStepGeneric_resp_lost fork blinded st r hr]; exact ⟨rfl, h⟩
      · rw [Bool.not_eq_true] at hr
        rw [raceStepGeneric_resp_win fork blinded st r hv hr]
        refine ⟨head?_append_left _ _ h, ?_⟩
        simp
    · rw [Bool.not_eq_true] at hv
      rw [raceStepGeneric_resp_invalid fork blinded st r hv]
      exact ⟨rfl, h⟩

theorem foldl_raceStepGeneric_head (fork : ForkDescriptor) (blinded : BlindedBlock) :
    ∀ (l : List RaceEvent) (st : RaceState), st.channel ≠ [] →
      (l.foldl (raceStepGeneric fork blinded) st).channel.head? = st.channel.head?
      ∧ (l.foldl (raceStepGeneric fork blinded) st).channel ≠ [] := by
  intro l
  induction l with
  | nil => intro st h; exact ⟨rfl, h⟩
  | cons e es ih =>
    intro st h
    rw [List.foldl_cons]
    obtain ⟨h1, h2⟩ := raceStepGeneric_head fork blinded st e h
    obtain ⟨h3, h4⟩ := ih _ h2
    exact ⟨h3.trans h1, h4⟩

/-- Every entry of the final channel of the generic race is `nil` or a
validated response. -/
theorem runRaceGeneric_channel_valid (fork : ForkDescriptor) (blinded : BlindedBlock)
    (evs : List RaceEvent) (x : Option SubmitBlindedBlockResponse)
    (hx : x ∈ (runRaceGeneric fork blinded evs).channel) :
    x = none ∨ ∃ r, x = some r ∧ validateGenericResponse fork blinded r = true := by
  exact runRaceGeneric_channel_inv fork blinded evs _ (by intro y hy; cases hy) x hx

/-- A response read off the head of the race channel passed validation. -/
theorem runRaceGeneric_head_valid (fork : ForkDescriptor) (blinded : BlindedBlock)
    (evs : List RaceEvent) (r : SubmitBlindedBlockResponse)
    (h : (runRaceGeneric fork blinded evs).channel.head?.getD none = some r) :
    validateGenericResponse fork blinded r = true := by
  cases hc : (runRaceGeneric fork blinded evs).channel with
  | nil => rw [hc] at h; cases h
  | cons a t =>
    rw [hc] at h
    simp only [List.head?_cons, Option.getD_some] at h
    have ha : a ∈ (runRaceGeneric fork blinded evs).channel := by
      rw [hc]; exact List.mem_cons_self a t
    rcases runRaceGeneric_channel_valid fork blinded evs a ha with h0 | ⟨q, hq, hqv⟩
    · rw [h0] at h; cases h
    · rw [hq] at h
      obtain rfl : q = r := by injection h
      exact hqv

/-- Claim C4: race monotonicity of `getPayload`.  In any interleaving of the
Deneb payload race, the channel carries at most one payload, every payload it
carries passed the full validation sequence, the single value the caller
reads is either that winning payload or `nil`, and if the timeout sentinel
fires before any channel activity the caller's value is `nil`. -/
theorem getPayload_race_monotonicity (svc : ServiceState) (blinded : BlindedBlock)
    (evs : List RaceEvent) :
    (runRaceDeneb blinded evs).channel.countP Option.isSome ≤ 1
    ∧ (∀ r, some r ∈ (runRaceDeneb blinded evs).channel →
        validateDenebResponse blinded r = true)
    ∧ ((runRaceDeneb blinded evs).channel.head? = none
        ∨ (runRaceDeneb blinded evs).channel.head? = some none
        ∨ ∃ r, (runRaceDeneb blinded evs).channel.head? = some (some r)
            ∧ validateDenebResponse blinded r = true)
    ∧ (processDenebPayload svc blinded evs).result
        = (runRaceDeneb blinded evs).channel.head?.getD none
    ∧ (∀ pre post, evs = pre ++ RaceEvent.sentinel :: post →
        (∀ e ∈ pre, quietEventGeneric denebFork blinded e = true) →
        (runRaceDeneb blinded evs).channel.head? = some none) := by
  rw [runRaceDeneb_as_generic, validateDeneb_as_generic]
  refine ⟨?_, ?_, ?_, rfl, ?_⟩
  · have := runRaceGeneric_count_inv denebFork blinded evs
      { received := false, channel := [] } (by simp)
    exact this.trans (by split_ifs <;> omega)
  · intro r hr
    rcases runRaceGeneric_channel_valid denebFork blinded evs (some r) hr with h | ⟨q, hq, hqv⟩
    · cases h
    · obtain rfl : r = q := by injection hq
      exact hqv
  · cases hc : (runRaceGeneric denebFork blinded evs).channel with
    | nil => exact Or.inl rfl
    | cons a t =>
      have ha : a ∈ (runRaceGeneric denebFork blinded evs).channel := by
        rw [hc]; exact List.mem_cons_self a t
      rcases runRaceGeneric_channel_valid denebFork blinded evs a ha with h | ⟨q, hq, hqv⟩
      · rw [h]; exact Or.inr (Or.inl rfl)
      · rw [hq]; exact Or.inr (Or.inr ⟨q, rfl, hqv⟩)
  · intro pre post hevs hquiet
    rw [hevs]
    unfold runRaceGeneric
    rw [List.foldl_append, quiet_foldl denebFork blinded pre _ hquiet, List.foldl_cons,
      raceStepGeneric_sentinel]
    exact (foldl_raceStepGeneric_head denebFork blinded post _ (by simp)).1

/-- Witness for C4: with a failed relay, a sentinel and a late valid relay
response, the caller reads `nil` and the channel held at most one payload. -/
theorem getPayload_race_monotonicity_witness :
    (runRaceDeneb blindedFix [RaceEvent.relayError, RaceEvent.sentinel,
        RaceEvent.relayResponse respFixD]).channel.countP Option.isSome ≤ 1
    ∧ (runRaceDeneb blindedFix [RaceEvent.relayError, RaceEvent.sentinel,
        RaceEvent.relayResponse respFixD]).channel.head? = some none :=
  ⟨(getPayload_race_monotonicity stFix blindedFix
      [RaceEvent.relayError, RaceEvent.sentinel, RaceEvent.relayResponse respFixD]).1,
   (getPayload_race_monotonicity stFix blindedFix
      [RaceEvent.relayError, RaceEvent.sentinel, RaceEvent.relayResponse respFixD]).2.2.2.2
      [RaceEvent.relayError] [RaceEvent.relayResponse respFixD] rfl (by decide)⟩

/-- Claim C3: payload coherence.  Every non-nil payload either coordinator
delivers has the expected fork version, is structurally non-empty, carries
the blinded block's execution-header block hash, has blob, commitment and
proof vectors whose lengths equal the blinded block's commitment count, and
its commitment vector equals the blinded block's element-wise. -/
theorem getPayload_payload_coherence (svc : ServiceState) (blinded : BlindedBlock)
    (evs : List RaceEvent) (rd re : SubmitBlindedBlockResponse)
    (hd : (processDenebPayload svc blinded evs).result = some rd)
    (he : (processElectraPayload svc blinded evs).result = some re) :
    (rd.version = DataVersion.deneb ∧ rd.isEmptyResp = false
      ∧ rd.deneb.executionPayload.blockHash = blinded.blockHash
      ∧ rd.deneb.blobsBundle.blobs.length = blinded.blobKZGCommitments.length
      ∧ rd.deneb.blobsBundle.commitments.length = blinded.blobKZGCommitments.length
      ∧ rd.deneb.blobsBundle.proofs.length = blinded.blobKZGCommitments.length
      ∧ rd.deneb.blobsBundle.commitments = blinded.blobKZGCommitments)
    ∧ (re.version = DataVersion.electra ∧ re.isEmptyResp = false
      ∧ re.electra.executionPayload.blockHash = blinded.blockHash
      ∧ re.electra.blobsBundle.blobs.length = blinded.blobKZGCommitments.length
      ∧ re.electra.blobsBundle.commitments.length = blinded.blobKZGCommitments.length
      ∧ re.electra.blobsBundle.proofs.length = blinded.blobKZGCommitments.length
      ∧ re.electra.blobsBundle.commitments = blinded.blobKZGCommitments) := by
  have hvd : validateGenericResponse denebFork blinded rd = true :=
    runRaceGeneric_head_valid denebFork blinded evs rd hd
  have hve : validateGenericResponse electraFork blinded re = true :=
    runRaceGeneric_head_valid electraFork blinded evs re he
  exact ⟨validateGeneric_spec denebFork blinded rd hvd,
    validateGeneric_spec electraFork blinded re hve⟩

/-- Witness for C3: the fixture responses are delivered and coherent. -/
theorem getPayload_payload_coherence_witness :
    (respFixD.version = DataVersion.deneb ∧ respFixD.isEmptyResp = false
      ∧ respFixD.deneb.executionPayload.blockHash = blindedFix.blockHash
      ∧ respFixD.deneb.blobsBundle.blobs.length = blindedFix.blobKZGCommitments.length
      ∧ respFixD.deneb.blobsBundle.commitments.length
          = blindedFix.blobKZGCommitments.length
      ∧ respFixD.deneb.blobsBundle.proofs.length = blindedFix.blobKZGCommitments.length
      ∧ respFixD.deneb.blobsBundle.commitments = blindedFix.blobKZGCommitments)
    ∧ (respFixE.version = DataVersion.electra ∧ respFixE.isEmptyResp = false
      ∧ respFixE.electra.executionPayload.blockHash = blindedFix.blockHash
      ∧ respFixE.electra.blobsBundle.blobs.length = blindedFix.blobKZGCommitments.length
      ∧ respFixE.electra.blobsBundle.commitments.length
          = blindedFix.blobKZGCommitments.length
      ∧ respFixE.electra.blobsBundle.proofs.length = blindedFix.blobKZGCommitments.length
      ∧ respFixE.electra.blobsBundle.commitments = blindedFix.blobKZGCommitments) :=
  getPayload_payload_coherence stFix blindedFix
    [RaceEvent.relayResponse respFixD, RaceEvent.relayResponse respFixE]
    respFixD respFixE (by decide) (by decide)

/-- Claim C8: `getPayload` never aborts on pre-flight failures.  A slot-UID
mismatch only makes the attached UID empty; the race result is computed from
the relay events alone, independent of the cached bid (absent or without
relays); the cached bid is returned in every case, including the
all-relays-silent interleaving where only the sentinel fires and the payload
result is `nil`. -/
theorem getPayload_preflight_resilient (svc : ServiceState) (blinded : BlindedBlock)
    (evs : List RaceEvent) (bids2 : Nat → List Nat → bidResp) :
    (svc.slotUID.slot ≠ blinded.slot →
      (processDenebPayload svc blinded evs).headerSlotUID = none)
    ∧ (processDenebPayload svc blinded evs).originalBid
        = svc.bids blinded.slot blinded.blockHash
    ∧ (processDenebPayload svc blinded evs).result
        = (runRaceDeneb blinded evs).channel.head?.getD none
    ∧ (processDenebPayload { svc with bids := bids2 } blinded evs).result
        = (processDenebPayload svc blinded evs).result
    ∧ (processDenebPayload svc blinded [RaceEvent.sentinel]).result = none
    ∧ (processDenebPayload svc blinded [RaceEvent.sentinel]).originalBid
        = svc.bids blinded.slot blinded.blockHash := by
  refine ⟨?_, rfl, rfl, rfl, rfl, rfl⟩
  intro h
  simp [processDenebPayload, h]

/-- Witness for C8: with the registry at slot 1 and a blinded block at slot
0, the attached UID is empty yet the race proceeds and the cached bid is
returned. -/
theorem getPayload_preflight_resilient_witness :
    (processDenebPayload { slotUID := ⟨1, 5⟩, bids := fun _ _ => emptyBidResp }
        blindedFix [RaceEvent.sentinel]).headerSlotUID = none :=
  (getPayload_preflight_resilient
    { slotUID := ⟨1, 5⟩, bids := fun _ _ => emptyBidResp } blindedFix
    [RaceEvent.sentinel] (fun _ _ => emptyBidResp)).1 (by decide)

/-- Claim C9: fork-variant equivalence.  The Deneb and Electra unblinding
coordinators are both instances of the generic coordinator at their fork
descriptors: they agree on the slot-UID lookup, the bid-cache lookup, the
race with its sentinel and compare-and-swap delivery, and the validation
sequence, differing only in the expected version and the extracted fork
arm. -/
theorem getPayload_fork_generic_equiv :
    processDenebPayload = processPayloadGeneric denebFork
    ∧ processElectraPayload = processPayloadGeneric electraFork :=
  ⟨rfl, rfl⟩

/-- Claim C10: frame property of `getPayload`.  Both coordinators leave the
service state — the bid cache and the slot-UID registry — unchanged, and a
repeated call for the same blinded block observes the same original bid. -/
theorem getPayload_frame (svc : ServiceState) (blinded : BlindedBlock)
    (evs evs2 : List RaceEvent) :
    (processDenebPayload svc blinded evs).state = svc
    ∧ (processElectraPayload svc blinded evs).state = svc
    ∧ (processDenebPayload (processDenebPayload svc blinded evs).state blinded
        evs2).originalBid = (processDenebPayload svc blinded evs).originalBid
    ∧ (processElectraPayload (processElectraPayload svc blinded evs).state blinded
        evs2).originalBid = (processElectraPayload svc blinded evs).originalBid :=
  ⟨rfl, rfl, rfl, rfl⟩

end MevBoost
